import Mathlib

/-!
Verification of the Memory-Sequence-Game core (src/memory/memorygame.py)
against its natural-language specification.

The Python source is shallowly embedded below.  Pure helpers become Lean
functions; the mutable `Game` object becomes an explicit record that the
round functions transform; the `random.randint` library call is modelled
by an oracle value fed through `randint`; `pygame`'s pending-event queue
is modelled as an explicit list of the cell identifiers hit by clicks.
Rendering (colors, fonts, sounds, per-frame animation drawing) has no
effect on the game state and is not modelled.
-/

/-! ## Constants (memorygame.py lines 12, 41-43) -/

def WIDTH : Int := 800
def HEIGHT : Int := 600
def BUTTON_SIZE : Int := 150
def BUTTON_PADDING : Int := 30
def MAX_BUTTONS : Nat := 10

/-! ## Geometry: `create_buttons` (lines 453-477) -/

/-- A pygame rectangle: top-left corner, width and height. -/
structure Rect where
  x : Int
  y : Int
  w : Int
  h : Int
  deriving DecidableEq

/-- A button as far as game logic is concerned: its bounds and its cell
identifier.  The source's `Button` class also carries color/scale animation
state (lines 67-78); that state is presentation-only, is never read by the
game logic, and `start_hover` is never called, so `scale` stays `1.0`. -/
structure Button where
  rect : Rect
  id : Nat
  deriving DecidableEq

/-- Lines 456-458: `grid_cols = int(num_buttons ** 0.5); if grid_cols ** 2 <
num_buttons: grid_cols += 1`.  The float floor-square-root `int(n ** 0.5)` is
modelled by the exact integer square root `Nat.sqrt`. -/
def grid_cols (n : Nat) : Nat :=
  if Nat.sqrt n * Nat.sqrt n < n then Nat.sqrt n + 1 else Nat.sqrt n

/-- Lines 456, 459-460: `grid_rows = int(num_buttons ** 0.5); if grid_cols *
grid_rows < num_buttons: grid_rows += 1` (the check uses the already-bumped
`grid_cols`). -/
def grid_rows (n : Nat) : Nat :=
  if grid_cols n * Nat.sqrt n < n then Nat.sqrt n + 1 else Nat.sqrt n

/-- Line 463: `total_width = grid_cols * BUTTON_SIZE + (grid_cols - 1) *
BUTTON_PADDING` (computed in Python ints, which can go negative for n = 0,
hence `Int`). -/
def total_width (n : Nat) : Int :=
  (grid_cols n : Int) * BUTTON_SIZE + ((grid_cols n : Int) - 1) * BUTTON_PADDING

/-- Line 464. -/
def total_height (n : Nat) : Int :=
  (grid_rows n : Int) * BUTTON_SIZE + ((grid_rows n : Int) - 1) * BUTTON_PADDING

/-- Line 467: `start_x = (WIDTH - total_width) // 2`; Python `//` is floor
division, i.e. `Int.fdiv`. -/
def start_x (n : Nat) : Int := Int.fdiv (WIDTH - total_width n) 2

/-- Line 468. -/
def start_y (n : Nat) : Int := Int.fdiv (HEIGHT - total_height n) 2

/-- Lines 470-476: the button built on iteration `i` of the loop:
row = i // grid_cols, col = i % grid_cols, placed at
(start_x + col*(SIZE+PADDING), start_y + row*(SIZE+PADDING)), id = i. -/
def button_at (n i : Nat) : Button :=
  { rect :=
      { x := start_x n + (i % grid_cols n : Nat) * (BUTTON_SIZE + BUTTON_PADDING)
        y := start_y n + (i / grid_cols n : Nat) * (BUTTON_SIZE + BUTTON_PADDING)
        w := BUTTON_SIZE
        h := BUTTON_SIZE }
    id := i }

/-- Lines 453-477: `create_buttons(num_buttons)` returns the buttons for
`i in range(num_buttons)` in order. -/
def create_buttons (n : Nat) : List Button :=
  (List.range n).map (button_at n)

/-- Two rectangles overlap when their interiors intersect: they meet on the
x-axis and on the y-axis. -/
def overlaps (a b : Rect) : Prop :=
  a.x < b.x + b.w ∧ b.x < a.x + a.w ∧ a.y < b.y + b.h ∧ b.y < a.y + a.h

instance (a b : Rect) : Decidable (overlaps a b) := by
  unfold overlaps; infer_instance

/-! ## Game state (class `Game`, lines 175-199) -/

/-- Line 177: the state strings "TITLE", "DIFFICULTY", "GAME", "GAME_OVER". -/
inductive GState where
  | TITLE
  | DIFFICULTY
  | GAME
  | GAME_OVER
  deriving DecidableEq

/-- The two difficulty strings "Normal" and "Fast" used by the source. -/
inductive Difficulty where
  | Normal
  | Fast
  deriving DecidableEq

/-- The mutable fields of the `Game` object that the game logic reads or
writes (lines 176-192).  `self.buttons` is always `create_buttons
self.num_buttons` (lines 178, 199, 208) and is kept derived rather than
stored; `self.max_buttons` is set to the constant `MAX_BUTTONS` at
construction (line 183) and never reassigned, so it appears below as the
constant. -/
structure Game where
  state : GState
  sequence : List Nat
  user_sequence : List Nat
  score : Nat
  num_buttons : Nat
  difficulty : Difficulty
  display_speed : Nat
  fast_display_speed : Nat
  deriving DecidableEq

/-- `Game.__init__` (lines 176-192): state "TITLE", empty sequences, score 0,
4 buttons, difficulty "Normal", display_speed 500, fast_display_speed 100. -/
def mk_game : Game :=
  { state := GState.TITLE
    sequence := []
    user_sequence := []
    score := 0
    num_buttons := 4
    difficulty := Difficulty.Normal
    display_speed := 500
    fast_display_speed := 100 }

/-- `reset_game` (lines 194-199): clears both sequences, zeroes the score,
returns to 4 buttons (and regenerates `self.buttons`, which is derived here).
The difficulty and speed fields are untouched. -/
def reset_game (g : Game) : Game :=
  { g with sequence := [], user_sequence := [], score := 0, num_buttons := 4 }

/-- The loop body of `add_buttons` (lines 205-207) iterated `count` times:
each iteration increments `num_buttons` only while it is below
`max_buttons`. -/
def addCount (n : Nat) : Nat → Nat
  | 0 => n
  | k + 1 => addCount (if n < MAX_BUTTONS then n + 1 else n) k

/-- `add_buttons(count)` (lines 201-208): grow `num_buttons` as above and
regenerate the (derived) button list. -/
def add_buttons (g : Game) (count : Nat) : Game :=
  { g with num_buttons := addCount g.num_buttons count }

/-- The library call `random.randint(a, b)`: a uniform draw from `[a, b]`.
It is modelled by reducing an oracle value `r` (one fresh oracle value per
call) modulo the size of the range; a uniformly distributed oracle yields a
uniformly distributed result (proved for one period in the C8 theorem). -/
def randint (a b r : Nat) : Nat := a + r % (b + 1 - a)

/-- `add_to_sequence` (lines 210-211): append `random.randint(0,
self.num_buttons - 1)` to the sequence; `r` is the oracle value consumed by
this call. -/
def add_to_sequence (g : Game) (r : Nat) : Game :=
  { g with sequence := g.sequence ++ [randint 0 (g.num_buttons - 1) r] }

/-- Line 300, inside `animate_sequence`: the argument of `pygame.time.delay`
applied after each highlight —
`self.fast_display_speed if self.difficulty == "Fast" else
self.display_speed`. -/
def highlight_delay (g : Game) : Nat :=
  if g.difficulty = Difficulty.Fast then g.fast_display_speed else g.display_speed

/-- Lines 411-428, the "DIFFICULTY" branch of `run`: clicking Normal sets
difficulty "Normal", display_speed 500, fast_display_speed 100; clicking Fast
sets difficulty "Fast", display_speed 100, fast_display_speed 50; either
choice moves the state machine to "GAME". -/
def select_difficulty (g : Game) (d : Difficulty) : Game :=
  match d with
  | Difficulty.Normal =>
      { g with difficulty := Difficulty.Normal, display_speed := 500,
               fast_display_speed := 100, state := GState.GAME }
  | Difficulty.Fast =>
      { g with difficulty := Difficulty.Fast, display_speed := 100,
               fast_display_speed := 50, state := GState.GAME }

/-- `animate_sequence` (lines 286-310) only draws, plays sounds and sleeps;
it contains no call to `pygame.event.get` (or any other event function), so
the pending click events accumulated in pygame's event queue are left there
unchanged.  This definition is that (identity) effect of playback on the
queue of pending hit cell identifiers. -/
def animate_sequence_queue (pending : List Nat) : List Nat := pending

/-- The user-input phase of `run_gameplay` (lines 326-371).  `expected` is
the suffix of `self.sequence` from the current loop index `idx` on, `clicks`
the stream of cell identifiers hit by successive polled click events (one
per poll, in arrival order; polled events that hit no button change nothing,
lines 337-338, and are not represented), `us` the accumulated
`self.user_sequence`.  Each click is appended to `user_sequence` (line 362)
and compared with `self.sequence[idx]` (line 364); a mismatch sets `running`
false, and the `if not running: break` checks (lines 370-374) stop both
loops, leaving the rest of the click stream unconsumed.  `none` models the
code blocking forever because the player never clicks again. -/
def inputPhase : List Nat → List Nat → List Nat → Option (List Nat × Bool × List Nat)
  | [], clicks, us => some (us, true, clicks)
  | _ :: _, [], _ => none
  | e :: rest, c :: clicks, us =>
      if c = e then inputPhase rest clicks (us ++ [c])
      else some (us ++ [c], false, clicks)

/-- Lines 377 and 380-382, run after a fully correct round: `self.score +=
1`, then `if self.score % 5 == 0 and self.num_buttons < self.max_buttons:
self.add_buttons(count=2)`. -/
def score_and_grow (g : Game) : Game :=
  let g3 := { g with score := g.score + 1 }
  if g3.score % 5 = 0 ∧ g3.num_buttons < MAX_BUTTONS then add_buttons g3 2 else g3

/-- One iteration of the `while running` loop of `run_gameplay` (lines
315-382), given the oracle value `r` for this round's `random.randint` call
and the round's click stream: append one random cell (line 323), run the
input phase on the whole sequence (lines 326-371; playback, line 324, does
not change the game state), and on full success increment the score and grow
the grid at score milestones (lines 377-382).  Returns the new state,
whether the round was fully correct, and the unconsumed clicks. -/
def run_round (g : Game) (r : Nat) (clicks : List Nat) :
    Option (Game × Bool × List Nat) :=
  match inputPhase (add_to_sequence g r).sequence clicks [] with
  | none => none
  | some (us, running, rest) =>
      if running then
        some (score_and_grow { add_to_sequence g r with user_sequence := us }, true, rest)
      else
        some ({ add_to_sequence g r with user_sequence := us }, false, rest)

/-- The `while running` loop of `run_gameplay` (lines 315-385) over a finite
list of per-round inputs: rounds are played while fully correct; the first
failed round ends the loop and sets `self.state = "GAME_OVER"` (line 385).
`none` means the supplied inputs were exhausted (or a round blocked) with the
session still in progress. -/
def playRounds (g : Game) : List (Nat × List Nat) → Option Game
  | [] => none
  | (r, clicks) :: rest =>
      match run_round g r clicks with
      | none => none
      | some (g', true, _) => playRounds g' rest
      | some (g', false, _) => some { g' with state := GState.GAME_OVER }

/-- `run_gameplay` (lines 312-385): reset the session (line 313), then run
the round loop. -/
def run_gameplay (g : Game) (inputs : List (Nat × List Nat)) : Option Game :=
  playRounds (reset_game g) inputs

/-- The game states reachable at the top of the `while running` loop of
`run_gameplay`: the freshly reset state, and the successor of any reachable
state by a fully-correct round. -/
inductive ReachesRound : Game → Prop where
  | start : ∀ g0, ReachesRound (reset_game g0)
  | step : ∀ g r clicks g' rest, ReachesRound g →
      run_round g r clicks = some (g', true, rest) → ReachesRound g'

/-- The number of buttons after `s` fully-correct rounds, read off the
milestone rule of lines 380-382. -/
def buttonsAfter : Nat → Nat
  | 0 => 4
  | s + 1 =>
      if (s + 1) % 5 = 0 ∧ buttonsAfter s < MAX_BUTTONS
      then addCount (buttonsAfter s) 2 else buttonsAfter s

/-- The state change of one fully-correct round with oracle value `r`: the
clicks consumed by `inputPhase` replayed the sequence exactly, so
`user_sequence` ends up equal to the (extended) sequence, and the score and
grid are updated (shown below to agree with `run_round` on success). -/
def correctStep (g : Game) (r : Nat) : Game :=
  score_and_grow
    { add_to_sequence g r with user_sequence := (add_to_sequence g r).sequence }

/-- The state change of one fully-correct round played with oracle value 0
and an exact replay of the sequence as clicks. -/
def perfectStep (g : Game) : Game := correctStep g 0

/-- The session state after `k` fully-correct rounds of such perfect play,
starting from a freshly reset game. -/
def perfectPlay : Nat → Game
  | 0 => reset_game mk_game
  | k + 1 => perfectStep (perfectPlay k)

/-- Concrete state used to evaluate the C1 claim: the result of one correct
round (oracle 0, click 0) right after choosing Fast. -/
def c1game : Game :=
  { state := GState.GAME, sequence := [0], user_sequence := [0], score := 1,
    num_buttons := 4, difficulty := Difficulty.Fast, display_speed := 100,
    fast_display_speed := 50 }

/-- Concrete state used to evaluate the C3 scenario: mid-session with
sequence `[2, 0]` and score 2, so the next round (oracle 1) plays the
sequence `[2, 0, 1]` of the spec scenario. -/
def c3game : Game :=
  { state := GState.GAME, sequence := [2, 0], user_sequence := [2, 0], score := 2,
    num_buttons := 4, difficulty := Difficulty.Normal, display_speed := 500,
    fast_display_speed := 100 }

/-! ## Helper lemmas -/

theorem addCount_ge : ∀ (k n : Nat), n ≤ addCount n k := by
  intro k
  induction k with
  | zero => intro n; simp [addCount]
  | succ k ih =>
      intro n
      simp only [addCount]
      split
      · exact le_trans (Nat.le_succ n) (ih (n + 1))
      · exact ih n

theorem addCount_le_max : ∀ (k n : Nat), n ≤ MAX_BUTTONS → addCount n k ≤ MAX_BUTTONS := by
  intro k
  induction k with
  | zero => intro n hn; simpa [addCount] using hn
  | succ k ih =>
      intro n hn
      simp only [addCount]
      split
      · exact ih (n + 1) (by omega)
      · exact ih n hn

theorem addCount_two (c : Nat) (h : c < MAX_BUTTONS) :
    addCount c 2 = min (c + 2) MAX_BUTTONS := by
  have h' : c < 10 := h
  interval_cases c <;> decide

theorem randint_lt {n : Nat} (hn : 1 ≤ n) (r : Nat) : randint 0 (n - 1) r < n := by
  have he : n - 1 + 1 - 0 = n := by omega
  simp only [randint, he, Nat.zero_add]
  exact Nat.mod_lt r hn

theorem score_and_grow_spec (g : Game) :
    (score_and_grow g).score = g.score + 1 ∧
    (score_and_grow g).num_buttons =
      (if (g.score + 1) % 5 = 0 ∧ g.num_buttons < MAX_BUTTONS
       then addCount g.num_buttons 2 else g.num_buttons) ∧
    (score_and_grow g).sequence = g.sequence ∧
    (score_and_grow g).user_sequence = g.user_sequence ∧
    (score_and_grow g).difficulty = g.difficulty ∧
    (score_and_grow g).display_speed = g.display_speed ∧
    (score_and_grow g).fast_display_speed = g.fast_display_speed ∧
    (score_and_grow g).state = g.state := by
  simp only [score_and_grow, add_buttons]
  split <;> simp_all

theorem correctStep_spec (g : Game) (r : Nat) :
    (correctStep g r).score = g.score + 1 ∧
    (correctStep g r).num_buttons =
      (if (g.score + 1) % 5 = 0 ∧ g.num_buttons < MAX_BUTTONS
       then addCount g.num_buttons 2 else g.num_buttons) ∧
    (correctStep g r).sequence = g.sequence ++ [randint 0 (g.num_buttons - 1) r] ∧
    (correctStep g r).user_sequence = g.sequence ++ [randint 0 (g.num_buttons - 1) r] ∧
    (correctStep g r).difficulty = g.difficulty ∧
    (correctStep g r).display_speed = g.display_speed ∧
    (correctStep g r).fast_display_speed = g.fast_display_speed ∧
    (correctStep g r).state = g.state := by
  have h := score_and_grow_spec
    { add_to_sequence g r with user_sequence := (add_to_sequence g r).sequence }
  simpa [correctStep, add_to_sequence] using h

theorem inputPhase_true :
    ∀ (expected : List Nat) {clicks us us' rest : List Nat},
      inputPhase expected clicks us = some (us', true, rest) → us' = us ++ expected := by
  intro expected
  induction expected with
  | nil =>
      intro clicks us us' rest h
      simp only [inputPhase, Option.some.injEq, Prod.mk.injEq] at h
      simp [← h.1]
  | cons e tail ih =>
      intro clicks us us' rest h
      cases clicks with
      | nil => simp [inputPhase] at h
      | cons c cs =>
          simp only [inputPhase] at h
          by_cases hc : c = e
          · rw [if_pos hc] at h
            have := ih h
            subst hc
            simp [this]
          · rw [if_neg hc] at h
            simp at h

theorem inputPhase_replay :
    ∀ (s us : List Nat), inputPhase s s us = some (us ++ s, true, []) := by
  intro s
  induction s with
  | nil => intro us; simp [inputPhase]
  | cons e tail ih =>
      intro us
      simp only [inputPhase, if_pos rfl, ih (us ++ [e])]
      simp

theorem inputPhase_mismatch :
    ∀ (i : Nat) (expected clicks us : List Nat),
      i < expected.length → i < clicks.length →
      (∀ j, j < i → clicks.getD j 0 = expected.getD j 0) →
      clicks.getD i 0 ≠ expected.getD i 0 →
      inputPhase expected clicks us =
        some (us ++ clicks.take (i + 1), false, clicks.drop (i + 1)) := by
  intro i
  induction i with
  | zero =>
      intro expected clicks us he hc _ hmis
      match expected, clicks with
      | e :: tail, c :: cs =>
          simp only [List.getD_cons_zero] at hmis
          simp [inputPhase, if_neg hmis]
  | succ i ih =>
      intro expected clicks us he hc hpre hmis
      match expected, clicks with
      | e :: tail, c :: cs =>
          have hce : c = e := by
            have := hpre 0 (Nat.succ_pos i)
            simpa using this
          simp only [inputPhase, if_pos hce]
          have htail : i < tail.length := by simpa using he
          have hcs : i < cs.length := by simpa using hc
          have hpre' : ∀ j, j < i → cs.getD j 0 = tail.getD j 0 := by
            intro j hj
            have := hpre (j + 1) (by omega)
            simpa using this
          have hmis' : cs.getD i 0 ≠ tail.getD i 0 := by simpa using hmis
          rw [ih tail cs (us ++ [c]) htail hcs hpre' hmis']
          simp

theorem run_round_success_eq {g g' : Game} {r : Nat} {clicks rest : List Nat}
    (h : run_round g r clicks = some (g', true, rest)) : g' = correctStep g r := by
  unfold run_round at h
  rcases hip : inputPhase (add_to_sequence g r).sequence clicks [] with _ | ⟨us, running, rest'⟩
  · rw [hip] at h; simp at h
  · rw [hip] at h
    cases running with
    | false => simp at h
    | true =>
        simp at h
        have hus : us = [] ++ (add_to_sequence g r).sequence := inputPhase_true _ hip
        rw [← h.1, hus]
        simp [correctStep]

theorem run_round_mismatch {g : Game} {r : Nat} (clicks : List Nat) (i : Nat)
    (hi : i < (add_to_sequence g r).sequence.length) (hc : i < clicks.length)
    (hpre : ∀ j, j < i → clicks.getD j 0 = (add_to_sequence g r).sequence.getD j 0)
    (hmis : clicks.getD i 0 ≠ (add_to_sequence g r).sequence.getD i 0) :
    run_round g r clicks =
      some ({ add_to_sequence g r with user_sequence := clicks.take (i + 1) },
            false, clicks.drop (i + 1)) := by
  unfold run_round
  rw [inputPhase_mismatch i _ clicks [] hi hc hpre hmis]
  simp

theorem reaches_invariant {g : Game} (h : ReachesRound g) :
    g.num_buttons = buttonsAfter g.score ∧
    g.sequence.length = g.score ∧
    4 ≤ g.num_buttons ∧
    g.num_buttons ≤ MAX_BUTTONS ∧
    (∀ v ∈ g.sequence, v < g.num_buttons) := by
  induction h with
  | start g0 => simp [reset_game, buttonsAfter, MAX_BUTTONS]
  | step g r clicks g' rest hreach heq ih =>
      obtain ⟨ib, il, i4, imax, iv⟩ := ih
      obtain ⟨s1, s2, s3, s4, _⟩ := correctStep_spec g r
      have hg' : g' = correctStep g r := run_round_success_eq heq
      subst hg'
      have hrand : randint 0 (g.num_buttons - 1) r < g.num_buttons :=
        randint_lt (by omega) r
      refine ⟨?_, ?_, ?_, ?_, ?_⟩
      · rw [s2, s1, ib]
        show _ = buttonsAfter (g.score + 1)
        simp only [buttonsAfter]
      · rw [s3, s1]; simp [il]
      · rw [s2]
        split
        · exact le_trans i4 (addCount_ge 2 g.num_buttons)
        · exact i4
      · rw [s2]
        split
        · exact addCount_le_max 2 g.num_buttons imax
        · exact imax
      · intro v hv
        rw [s3] at hv
        rw [s2]
        have hmono : g.num_buttons ≤
            (if (g.score + 1) % 5 = 0 ∧ g.num_buttons < MAX_BUTTONS
             then addCount g.num_buttons 2 else g.num_buttons) := by
          split
          · exact addCount_ge 2 g.num_buttons
          · exact le_refl _
        rcases List.mem_append.1 hv with hold | hnew
        · exact lt_of_lt_of_le (iv v hold) hmono
        · have : v = randint 0 (g.num_buttons - 1) r := by simpa using hnew
          subst this
          exact lt_of_lt_of_le hrand hmono

theorem run_round_perfect (g : Game) :
    run_round g 0 (add_to_sequence g 0).sequence = some (correctStep g 0, true, []) := by
  unfold run_round
  rw [inputPhase_replay (add_to_sequence g 0).sequence []]
  simp [correctStep]

theorem reaches_perfect (k : Nat) : ReachesRound (perfectPlay k) := by
  induction k with
  | zero => exact ReachesRound.start mk_game
  | succ k ih =>
      exact ReachesRound.step (perfectPlay k) 0 _ _ [] ih (run_round_perfect (perfectPlay k))

theorem perfect_score (k : Nat) : (perfectPlay k).score = k := by
  induction k with
  | zero => rfl
  | succ k ih =>
      have := (correctStep_spec (perfectPlay k) 0).1
      simpa [perfectPlay, perfectStep, ih] using this

theorem grid_cols_pos {n : Nat} (h : 1 ≤ n) : 1 ≤ grid_cols n := by
  unfold grid_cols
  split
  · omega
  · have h1 : 1 * 1 ≤ n := by omega
    have := Nat.le_sqrt.2 h1
    omega

theorem grid_cols_min {n : Nat} (c : Nat) (hc : n ≤ c * c) : grid_cols n ≤ c := by
  unfold grid_cols
  split
  · rename_i hlt
    by_contra hcon
    push_neg at hcon
    have hcs : c ≤ Nat.sqrt n := by omega
    have : c * c ≤ Nat.sqrt n * Nat.sqrt n := Nat.mul_le_mul hcs hcs
    omega
  · exact le_trans (Nat.sqrt_le_sqrt hc) (le_of_eq (Nat.sqrt_eq c))

theorem grid_rows_min {n : Nat} (r : Nat) (hr : n ≤ grid_cols n * r) : grid_rows n ≤ r := by
  unfold grid_rows
  split
  · rename_i hlt
    by_contra hcon
    push_neg at hcon
    have hrs : r ≤ Nat.sqrt n := by omega
    have : grid_cols n * r ≤ grid_cols n * Nat.sqrt n :=
      Nat.mul_le_mul (le_refl _) hrs
    omega
  · rename_i hge
    by_contra hcon
    push_neg at hcon
    have h1 : grid_cols n ≤ Nat.sqrt n + 1 := by
      unfold grid_cols; split <;> omega
    have h2 : r + 1 ≤ Nat.sqrt n := hcon
    have h3 : Nat.sqrt n * Nat.sqrt n ≤ n := Nat.sqrt_le n
    have h4 : grid_cols n * r ≤ (Nat.sqrt n + 1) * r :=
      Nat.mul_le_mul h1 (le_refl r)
    have h5 : (Nat.sqrt n + 1) * (r + 1) ≤ (Nat.sqrt n + 1) * Nat.sqrt n :=
      Nat.mul_le_mul (le_refl _) h2
    nlinarith

theorem grid_size (n : Nat) : n ≤ grid_cols n * grid_rows n := by
  by_cases hsq : Nat.sqrt n * Nat.sqrt n < n
  · have hc : grid_cols n = Nat.sqrt n + 1 := by unfold grid_cols; rw [if_pos hsq]
    unfold grid_rows
    rw [hc]
    split
    · have := Nat.lt_succ_sqrt n
      simpa [Nat.succ_eq_add_one] using Nat.le_of_lt this
    · rename_i hno
      exact Nat.le_of_not_lt hno
  · have hc : grid_cols n = Nat.sqrt n := by unfold grid_cols; rw [if_neg hsq]
    unfold grid_rows
    rw [hc, if_neg hsq]
    exact Nat.le_of_not_lt hsq

theorem sep_coord (s : Int) {a b : Nat} (hab : a < b) :
    ¬ (s + (b : Int) * (BUTTON_SIZE + BUTTON_PADDING) <
       s + (a : Int) * (BUTTON_SIZE + BUTTON_PADDING) + BUTTON_SIZE) := by
  have h' : (a : Int) + 1 ≤ (b : Int) := by exact_mod_cast hab
  simp only [BUTTON_SIZE, BUTTON_PADDING]
  omega

theorem button_no_overlap {n i j : Nat} (hij : i ≠ j) :
    ¬ overlaps (button_at n i).rect (button_at n j).rect := by
  intro hov
  obtain ⟨h1, h2, h3, h4⟩ := hov
  simp only [button_at] at h1 h2 h3 h4
  rcases Nat.lt_trichotomy (i % grid_cols n) (j % grid_cols n) with hlt | heq | hgt
  · exact sep_coord (start_x n) hlt h2
  · have hd1 := Nat.div_add_mod i (grid_cols n)
    have hd2 := Nat.div_add_mod j (grid_cols n)
    rcases Nat.lt_trichotomy (i / grid_cols n) (j / grid_cols n) with hl | he | hg
    · exact sep_coord (start_y n) hl h4
    · exact hij (by rw [← hd1, ← hd2, he, heq])
    · exact sep_coord (start_y n) hg h3
  · exact sep_coord (start_x n) hgt h1

theorem run_round_preserves {g g' : Game} {r : Nat} {clicks rest : List Nat} {b : Bool}
    (h : run_round g r clicks = some (g', b, rest)) :
    g'.difficulty = g.difficulty ∧ g'.display_speed = g.display_speed ∧
    g'.fast_display_speed = g.fast_display_speed ∧ g'.state = g.state ∧
    g.num_buttons ≤ g'.num_buttons := by
  unfold run_round at h
  rcases hip : inputPhase (add_to_sequence g r).sequence clicks [] with _ | ⟨us, running, rest'⟩ <;>
    rw [hip] at h
  · simp at h
  · cases running with
    | false =>
        simp at h
        rw [← h.1]
        refine ⟨?_, ?_, ?_, ?_, ?_⟩ <;> simp [add_to_sequence]
    | true =>
        simp at h
        rw [← h.1]
        obtain ⟨_, s2, _, _, s5, s6, s7, s8⟩ :=
          score_and_grow_spec { add_to_sequence g r with user_sequence := us }
        refine ⟨?_, ?_, ?_, ?_, ?_⟩
        · rw [s5]; rfl
        · rw [s6]; rfl
        · rw [s7]; rfl
        · rw [s8]; rfl
        · rw [s2]
          split
          · exact addCount_ge 2 _
          · exact Nat.le_refl _

/-! ## The claims -/

/-- C1, counterexample: the claim says the delay between successive
highlights is the profile display delay, 100 ms, when the selected
difficulty is Fast.  In the code, after the Fast choice (lines 423-426,
`display_speed = 100`, `fast_display_speed = 50`), the delay passed to
`pygame.time.delay` per highlight (line 300) is `fast_display_speed`,
i.e. 50 ms, not 100 ms. -/
theorem C1_delay_counterexample :
    highlight_delay (select_difficulty mk_game Difficulty.Fast) = 50 ∧
    highlight_delay (select_difficulty mk_game Difficulty.Fast) ≠ 100 := by
  decide

/-- C1, amended: in the Playing state after a difficulty choice, the
per-highlight delay of `animate_sequence` (line 300) is 500 ms for Normal
and 50 ms for Fast (the code picks `fast_display_speed`, set to 50 by the
Fast choice, rather than `display_speed = 100`); the delay stays at that
value across every round of the session. -/
theorem C1_delay_amended (g g' : Game) (r : Nat) (clicks rest : List Nat) (b : Bool)
    (h : run_round (select_difficulty g Difficulty.Fast) r clicks = some (g', b, rest)) :
    highlight_delay (select_difficulty g Difficulty.Normal) = 500 ∧
    highlight_delay (select_difficulty g Difficulty.Fast) = 50 ∧
    highlight_delay g' = 50 := by
  obtain ⟨p1, _, p3, _, _⟩ := run_round_preserves h
  refine ⟨by simp [highlight_delay, select_difficulty], by simp [highlight_delay, select_difficulty], ?_⟩
  unfold highlight_delay
  rw [p1, p3]
  simp [select_difficulty]

/-- C1, witness: a concrete fully played round after choosing Fast, on which
the amended claim evaluates. -/
theorem C1_delay_witness :
    run_round (select_difficulty mk_game Difficulty.Fast) 0 [0] = some (c1game, true, []) ∧
    highlight_delay c1game = 50 :=
  ⟨by decide, (C1_delay_amended mk_game c1game 0 [0] [] true (by decide)).2.2⟩

/-- C2: in every reachable session state the button count is the function
`buttonsAfter` of the score; one more correct round grows the count by
exactly 2 (capped at `MAX_BUTTONS`) precisely when the new score is a
positive multiple of 5 and the count is below the maximum, and leaves it
unchanged otherwise — in particular it never grows once the count is at the
maximum; and along a concrete 20-round all-correct session the counts after
5, 10, 15, 20 rounds are 6, 8, 10, 10. -/
theorem C2_growth :
    (∀ g, ReachesRound g → g.num_buttons = buttonsAfter g.score) ∧
    (∀ s, buttonsAfter (s + 1) =
        if (s + 1) % 5 = 0 ∧ buttonsAfter s < MAX_BUTTONS
        then min (buttonsAfter s + 2) MAX_BUTTONS else buttonsAfter s) ∧
    (∀ s, buttonsAfter s = MAX_BUTTONS → buttonsAfter (s + 1) = MAX_BUTTONS) ∧
    (∀ k, ReachesRound (perfectPlay k) ∧ (perfectPlay k).score = k) ∧
    (perfectPlay 5).num_buttons = 6 ∧
    (perfectPlay 10).num_buttons = 8 ∧
    (perfectPlay 15).num_buttons = 10 ∧
    (perfectPlay 20).num_buttons = 10 := by
  refine ⟨?_, ?_, ?_, ?_, by decide, by decide, by decide, by decide⟩
  · intro g hg
    exact (reaches_invariant hg).1
  · intro s
    simp only [buttonsAfter]
    by_cases hcond : (s + 1) % 5 = 0 ∧ buttonsAfter s < MAX_BUTTONS
    · rw [if_pos hcond, if_pos hcond, addCount_two _ hcond.2]
    · rw [if_neg hcond, if_neg hcond]
  · intro s h
    simp [buttonsAfter, h, MAX_BUTTONS]
  · intro k
    exact ⟨reaches_perfect k, perfect_score k⟩

/-- C2, witness: the claim evaluated on the freshly reset session. -/
theorem C2_growth_witness :
    (reset_game mk_game).num_buttons = buttonsAfter (reset_game mk_game).score :=
  C2_growth.1 (reset_game mk_game) (ReachesRound.start mk_game)

/-- C3: if the clicks of a round first diverge from the (just extended)
sequence at position `i`, the round ends right there: exactly `i + 1` clicks
are consumed (`user_sequence` is the trace up to and including the offending
click, the rest of the click stream is returned unconsumed), the round
reports failure, the score is unchanged from before the round, and the
session loop stops and enters the GAME_OVER state without playing any
further round. -/
theorem C3_first_mismatch (g : Game) (r : Nat) (clicks : List Nat)
    (more : List (Nat × List Nat)) (i : Nat)
    (hi : i < (add_to_sequence g r).sequence.length)
    (hc : i < clicks.length)
    (hpre : ∀ j, j < i → clicks.getD j 0 = (add_to_sequence g r).sequence.getD j 0)
    (hmis : clicks.getD i 0 ≠ (add_to_sequence g r).sequence.getD i 0) :
    run_round g r clicks =
      some ({ add_to_sequence g r with user_sequence := clicks.take (i + 1) },
            false, clicks.drop (i + 1)) ∧
    ({ add_to_sequence g r with user_sequence := clicks.take (i + 1) } : Game).score
      = g.score ∧
    playRounds g ((r, clicks) :: more) =
      some ({ add_to_sequence g r with
              user_sequence := clicks.take (i + 1),
              state := GState.GAME_OVER }) := by
  have h := run_round_mismatch clicks i hi hc hpre hmis
  refine ⟨h, by simp [add_to_sequence], ?_⟩
  simp only [playRounds]
  rw [h]

/-- C3, witness: the spec scenario — sequence `[2, 0, 1]`, trace `[2, 0, 3]`,
mismatch detected at index 2, round over, score still 2. -/
theorem C3_first_mismatch_witness :
    run_round c3game 1 [2, 0, 3] =
      some ({ add_to_sequence c3game 1 with user_sequence := [2, 0, 3].take 3 },
            false, [2, 0, 3].drop 3) ∧
    ({ add_to_sequence c3game 1 with user_sequence := [2, 0, 3].take 3 } : Game).score
      = c3game.score ∧
    playRounds c3game ((1, [2, 0, 3]) :: []) =
      some ({ add_to_sequence c3game 1 with
              user_sequence := [2, 0, 3].take 3,
              state := GState.GAME_OVER }) :=
  C3_first_mismatch c3game 1 [2, 0, 3] [] 2 (by decide) (by decide)
    (by intro j hj; interval_cases j <;> decide) (by decide)

/-- C4: for every `n ≥ 1`, `create_buttons n` yields exactly `n` cells;
distinct cells never overlap; cell `i` carries identifier `i` and sits
row-major at column `i % cols`, row `i / cols`; the grid satisfies
`cols * rows ≥ n`; `cols` is minimal with `cols * cols ≥ n` (the square-first
preference, i.e. `cols = ⌈√n⌉`), and `rows` is minimal with
`cols * rows ≥ n`. -/
theorem C4_layout (n : Nat) (h : 1 ≤ n) :
    (create_buttons n).length = n ∧
    (∀ i j (hi : i < (create_buttons n).length) (hj : j < (create_buttons n).length),
        i ≠ j → ¬ overlaps ((create_buttons n)[i]).rect ((create_buttons n)[j]).rect) ∧
    (∀ i (hi : i < (create_buttons n).length),
        (create_buttons n)[i] = button_at n i ∧
        (button_at n i).id = i ∧
        (button_at n i).rect.x =
          start_x n + (i % grid_cols n : Nat) * (BUTTON_SIZE + BUTTON_PADDING) ∧
        (button_at n i).rect.y =
          start_y n + (i / grid_cols n : Nat) * (BUTTON_SIZE + BUTTON_PADDING)) ∧
    n ≤ grid_cols n * grid_rows n ∧
    (∀ c, n ≤ c * c → grid_cols n ≤ c) ∧
    (∀ r, n ≤ grid_cols n * r → grid_rows n ≤ r) := by
  refine ⟨by simp [create_buttons], ?_, ?_, grid_size n, ?_, ?_⟩
  · intro i j hi hj hij
    have e1 : (create_buttons n)[i] = button_at n i := by
      simp [create_buttons]
    have e2 : (create_buttons n)[j] = button_at n j := by
      simp [create_buttons]
    rw [e1, e2]
    exact button_no_overlap hij
  · intro i hi
    refine ⟨by simp [create_buttons], rfl, rfl, rfl⟩
  · intro c hc
    exact grid_cols_min c hc
  · intro r hr
    exact grid_rows_min r hr

/-- C4, witness: the layout evaluated at n = 5 (a 3-by-2 grid of 5 cells). -/
theorem C4_layout_witness :
    (create_buttons 5).length = 5 ∧ 5 ≤ grid_cols 5 * grid_rows 5 :=
  ⟨(C4_layout 5 (by decide)).1, (C4_layout 5 (by decide)).2.2.2.1⟩

/-- C5: in every reachable round-start state the sequence length equals the
score, so during the recall phase (after `add_to_sequence` appends exactly
one element) the sequence length is score + 1; a fully correct recall
increments the score by exactly one; and in the concrete scenario, a full
correct replay of the length-1 sequence takes the score from 0 to 1 and the
next round's append makes the recall-phase sequence length 2. -/
theorem C5_sequence_length :
    (∀ g, ReachesRound g → g.sequence.length = g.score) ∧
    (∀ g r, ReachesRound g → (add_to_sequence g r).sequence.length = g.score + 1) ∧
    (∀ g r, (add_to_sequence g r).sequence.length = g.sequence.length + 1) ∧
    (∀ g g' r clicks rest, run_round g r clicks = some (g', true, rest) →
        g'.score = g.score + 1) ∧
    (perfectPlay 0).score = 0 ∧
    (perfectPlay 1).score = 1 ∧
    (perfectPlay 1).sequence.length = 1 ∧
    (∀ r, (add_to_sequence (perfectPlay 1) r).sequence.length = 2) := by
  have hlen : ∀ g : Game, ∀ r, (add_to_sequence g r).sequence.length =
      g.sequence.length + 1 := by
    intro g r
    simp [add_to_sequence]
  refine ⟨?_, ?_, hlen, ?_, by decide, by decide, by decide, ?_⟩
  · intro g hg
    exact (reaches_invariant hg).2.1
  · intro g r hg
    rw [hlen g r, (reaches_invariant hg).2.1]
  · intro g g' r clicks rest h
    rw [run_round_success_eq h]
    exact (correctStep_spec g r).1
  · intro r
    have h1 : (perfectPlay 1).sequence.length = 1 := by decide
    rw [hlen, h1]

/-- C5, witness: the invariant evaluated on the freshly reset session
state. -/
theorem C5_sequence_length_witness :
    (reset_game mk_game).sequence.length = (reset_game mk_game).score :=
  C5_sequence_length.1 (reset_game mk_game) (ReachesRound.start mk_game)

/-- C6: the layout is a pure function of `n` alone — two calls with the same
`n` return equal lists of cells, and every cell is fully determined by the
closed-form `button_at n i` (row-major position from `n` and `i`, identifier
`i`), with no other input or hidden state in the embedding of
`create_buttons`. -/
theorem C6_layout_deterministic :
    (∀ n, create_buttons n = create_buttons n) ∧
    (∀ n, create_buttons n = (List.range n).map (button_at n)) ∧
    (∀ n i, i < n → (button_at n i).id = i) ∧
    (∀ n i (hi : i < (create_buttons n).length),
        ((create_buttons n)[i]).rect = (button_at n i).rect ∧
        ((create_buttons n)[i]).id = i) := by
  refine ⟨fun n => rfl, fun n => rfl, fun n i _ => rfl, ?_⟩
  intro n i hi
  have e : (create_buttons n)[i] = button_at n i := by
    simp [create_buttons]
  rw [e]
  exact ⟨rfl, rfl⟩

/-- C6, witness: determinism facts evaluated at n = 4, i = 2. -/
theorem C6_layout_deterministic_witness : (button_at 4 2).id = 2 :=
  C6_layout_deterministic.2.2.1 4 2 (by decide)

/-- C7: a difficulty choice moves the state machine to the Playing state,
entering the Playing state runs `run_gameplay`, whose first action is
`reset_game`: whatever the previous session left in the fields, the session
starts with score 0, 4 cells, and empty Sequence and UserTrace. -/
theorem C7_fresh_session (g : Game) (d : Difficulty)
    (inputs : List (Nat × List Nat)) :
    (select_difficulty g d).state = GState.GAME ∧
    run_gameplay (select_difficulty g d) inputs =
      playRounds (reset_game (select_difficulty g d)) inputs ∧
    (reset_game (select_difficulty g d)).score = 0 ∧
    (reset_game (select_difficulty g d)).num_buttons = 4 ∧
    (reset_game (select_difficulty g d)).sequence = [] ∧
    (reset_game (select_difficulty g d)).user_sequence = [] := by
  cases d <;> simp [select_difficulty, run_gameplay, reset_game]

/-- C8: with at least one active cell, `add_to_sequence` appends exactly one
value to the sequence; the appended value is `randint 0 (n-1) r`, which is
always at most `n - 1` (and, being a `Nat`, at least 0); and the draw is
uniform: over one full period of the oracle, every value of `[0, n-1]` is
produced exactly once. -/
theorem C8_append_random (g : Game) (r : Nat) (h : 1 ≤ g.num_buttons) :
    (add_to_sequence g r).sequence =
      g.sequence ++ [randint 0 (g.num_buttons - 1) r] ∧
    (add_to_sequence g r).sequence.length = g.sequence.length + 1 ∧
    randint 0 (g.num_buttons - 1) r < g.num_buttons ∧
    (∀ v, v < g.num_buttons →
      (Finset.filter (fun s => randint 0 (g.num_buttons - 1) s = v)
        (Finset.range g.num_buttons)).card = 1) := by
  refine ⟨rfl, by simp [add_to_sequence], randint_lt h r, ?_⟩
  intro v hv
  have he : g.num_buttons - 1 + 1 - 0 = g.num_buttons := by omega
  have hset : Finset.filter (fun s => randint 0 (g.num_buttons - 1) s = v)
      (Finset.range g.num_buttons) = {v} := by
    ext s
    simp only [Finset.mem_filter, Finset.mem_range, Finset.mem_singleton,
      randint, he, Nat.zero_add]
    constructor
    · rintro ⟨hs, hmod⟩
      rw [Nat.mod_eq_of_lt hs] at hmod
      exact hmod
    · rintro rfl
      exact ⟨hv, Nat.mod_eq_of_lt hv⟩
  rw [hset]
  simp

/-- C8, witness: the append evaluated on the initial game and oracle value
7 (the drawn value is 3). -/
theorem C8_append_random_witness :
    randint 0 (mk_game.num_buttons - 1) 7 < mk_game.num_buttons :=
  (C8_append_random mk_game 7 (by decide)).2.2.1

/-- C9, counterexample: the claim says clicks during playback are discarded
and cannot affect the UserTrace.  But `animate_sequence` leaves pending
click events in the queue, and the recall phase then consumes them: with
sequence `[0]` and one pending playback click on cell 1, the round consumes
that click as recall input, records UserTrace `[1]` and fails — whereas with
the click truly discarded the recall phase would block with an empty trace
(`run_round` returns `none`). -/
theorem C9_playback_clicks_counterexample :
    run_round (reset_game mk_game) 0 (animate_sequence_queue [1]) =
      some ({ add_to_sequence (reset_game mk_game) 0 with user_sequence := [1] },
            false, []) ∧
    ({ add_to_sequence (reset_game mk_game) 0 with
       user_sequence := [1] } : Game).user_sequence ≠ [] ∧
    run_round (reset_game mk_game) 0 [] = none := by
  refine ⟨by decide, by decide, by decide⟩

/-- C9, amended: clicks made during the playback phase are not discarded —
`animate_sequence` never polls the event queue, so they stay pending and are
consumed as input at the start of the recall phase; in particular a pending
playback click on a cell other than the first sequence element immediately
becomes UserTrace `[c]`, fails validation, and ends the session. -/
theorem C9_playback_clicks_amended (g : Game) (r c : Nat) (q : List Nat)
    (hc : c ≠ (add_to_sequence g r).sequence.getD 0 0) :
    run_round g r (animate_sequence_queue (c :: q)) =
      some ({ add_to_sequence g r with user_sequence := [c] }, false, q) := by
  have h0 : 0 < (add_to_sequence g r).sequence.length := by simp [add_to_sequence]
  have h := run_round_mismatch (g := g) (r := r) (c :: q) 0 h0 (by simp)
    (by intro j hj; omega) (by simpa using hc)
  simpa [animate_sequence_queue] using h

/-- C9, witness: the amended claim evaluated with pending playback click 2
against first sequence element 0. -/
theorem C9_playback_clicks_witness :
    run_round (reset_game mk_game) 0 (animate_sequence_queue [2]) =
      some ({ add_to_sequence (reset_game mk_game) 0 with user_sequence := [2] },
            false, []) :=
  C9_playback_clicks_amended (reset_game mk_game) 0 2 [] (by decide)

/-- C10: in every reachable session state each sequence element is below the
current cell count (each was below the count at its append time and the
count never decreases: every completed round leaves `num_buttons` greater or
equal); hence during playback, indexing the button list
`create_buttons num_buttons` with any element of the just-extended sequence
is in bounds. -/
theorem C10_index_safety :
    (∀ g, ReachesRound g → ∀ v ∈ g.sequence, v < g.num_buttons) ∧
    (∀ g g' r clicks b rest, run_round g r clicks = some (g', b, rest) →
        g.num_buttons ≤ g'.num_buttons) ∧
    (∀ g r, ReachesRound g →
        ∀ v ∈ (add_to_sequence g r).sequence,
          v < (create_buttons g.num_buttons).length) := by
  refine ⟨?_, ?_, ?_⟩
  · intro g hg
    exact (reaches_invariant hg).2.2.2.2
  · intro g g' r clicks b rest h
    exact (run_round_preserves h).2.2.2.2
  · intro g r hg v hv
    obtain ⟨_, _, h4, _, hall⟩ := reaches_invariant hg
    have hlen : (create_buttons g.num_buttons).length = g.num_buttons := by
      simp [create_buttons]
    rw [hlen]
    simp only [add_to_sequence, List.mem_append, List.mem_singleton] at hv
    rcases hv with hold | hnew
    · exact hall v hold
    · rw [hnew]
      exact randint_lt (by omega) r

/-- C10, witness: the safety facts evaluated on the freshly reset state and
oracle value 5 (the appended value is 1, the button list has length 4). -/
theorem C10_index_safety_witness :
    1 ∈ (add_to_sequence (reset_game mk_game) 5).sequence ∧
    1 < (create_buttons (reset_game mk_game).num_buttons).length :=
  ⟨by decide,
   C10_index_safety.2.2 (reset_game mk_game) 5 (ReachesRound.start mk_game) 1 (by decide)⟩
